import Mathlib

/-!
Verification of the cmnnc pipeline engine (src/pipeline.py).

This file gives a shallow embedding, in Lean 4, of the parts of
`pipeline.py` that the specification's claims are about:

* `StageInfo.__init__` (access classification into ro/wo/rw object sets),
* `LocToMaxIterIterator` (the watermark generator `max_iter_gen`,
  `handle_write`, `reads_ready`),
* `Core.validate_ops` / `Core.execute_ops`,
* `Object.set_reader` / `Object.set_writer` and the pipeline wiring loop,
* `Stage.tick_gen` and `Pipeline.tick` / `flush_writes` / `handle_write`.

Python dicts are modelled as association lists (Python dicts preserve
insertion order), Python sets as duplicate-free lists with ordered
insertion, numpy arrays as a shape plus a row-major flat data list
(with numpy's negative-index wrap-around), fallible code as
`Except String`, and numpy float values as rationals (no claim below
depends on floating-point rounding: only on value flow).
-/

deriving instance DecidableEq for Except

namespace Cmnnc

/-- Iteration / location indices: integer tuples (Python tuples of ints). -/
abbrev Idx := List Int

/-- Numeric values (models the numpy floating-point payloads; the claims
only concern value flow, never rounding). -/
abbrev Val := Rat

/-- Python tuple comparison `a <= b` (lexicographic; an exhausted left
tuple is smaller-or-equal). -/
def lexLe : List Int → List Int → Bool
  | [], _ => true
  | _ :: _, [] => false
  | a :: as_, b :: bs =>
    if a < b then true
    else if b < a then false
    else lexLe as_ bs

/-- `Except.ok`-ness, used to state "raises" / "does not raise". -/
def exOk {α : Type _} : Except String α → Bool
  | .ok _ => true
  | .error _ => false

/-- Python dict lookup on the association-list model. -/
def alookup {α : Type _} : List (String × α) → String → Option α
  | [], _ => none
  | p :: rest, o => if o = p.1 then some p.2 else alookup rest o

/-- Python dict update of an existing key on the association-list model. -/
def aupd {α : Type _} (m : List (String × α)) (k : String) (v : α) :
    List (String × α) :=
  m.map (fun p => if p.1 = k then (k, v) else p)

/-! ## StageInfo (pipeline.py lines 44-113)

`IslAccess` carries an access type string (`"RD"` / `"WR"`) and the name
of the accessed object; `OpInfo` carries the operation kind string, the
stage name and iteration domain (opaque tokens here: the claims never
inspect the polyhedral contents), and the ordered access list. -/

structure IslAccess where
  a_ty : String
  obj : String
deriving DecidableEq, Repr

structure OpInfo where
  op_ty : String
  stage_name : String
  domain : String
  accesses : List IslAccess
deriving DecidableEq, Repr

structure StageInfo where
  ro_objs : List String
  wo_objs : List String
  rw_objs : List String
deriving DecidableEq, Repr

/-- Python `set.add` on our ordered-list model of sets. -/
def sadd (l : List String) (x : String) : List String :=
  if x ∈ l then l else l ++ [x]

/-- Python `set.remove`. -/
def srem (l : List String) (x : String) : List String :=
  l.filter (fun y => y ≠ x)

/-- One step of the access-classification scan in `StageInfo.__init__`
(pipeline.py lines 92-113).  Note the faithful quirks of the source:
the `WR` branch tests `ro_objs` twice (line 110 repeats the line 108
test, so membership in `rw_objs` is never checked), and the final
`else` branch builds a `ValueError` without raising it (line 113), so
an unknown access type is a no-op. -/
def procAcc (si : StageInfo) (acc : IslAccess) : Except String StageInfo :=
  if acc.a_ty = "RD" then
    if acc.obj ∈ si.wo_objs then
      .ok { si with wo_objs := srem si.wo_objs acc.obj
                  , rw_objs := sadd si.rw_objs acc.obj }
    else if acc.obj ∈ si.ro_objs then .ok si
    else if acc.obj ∈ si.rw_objs then .ok si
    else .ok { si with ro_objs := sadd si.ro_objs acc.obj }
  else if acc.a_ty = "WR" then
    if acc.obj ∈ si.wo_objs then
      .error "Object written but also written previously"
    else if acc.obj ∈ si.ro_objs then
      .error "Object written previously read"
    else if acc.obj ∈ si.ro_objs then
      .error "Object written previously write and read"
    else .ok { si with wo_objs := sadd si.wo_objs acc.obj }
  else
    .ok si

/-- `StageInfo.__init__` (pipeline.py lines 71-113): empty-list check,
first-op-is-MxV check, the stage/domain agreement asserts, then the
left-to-right access-classification scan. -/
def stageInfoInit (ops : List OpInfo) : Except String StageInfo :=
  match ops with
  | [] => .error "No operations provided (length is 0)"
  | op0 :: _ =>
    if op0.op_ty ≠ "MxV" then .error "First operation should be MxV"
    else if ¬ ops.all (fun o => o.stage_name = op0.stage_name) then
      .error "assert: operations disagree on stage"
    else if ¬ ops.all (fun o => o.domain = op0.domain) then
      .error "assert: operations disagree on domain"
    else
      ops.foldlM (fun si op => op.accesses.foldlM procAcc si)
        ⟨[], [], []⟩

/-- The operation list `[MxV [WR a, RD a, WR a]]` that exhibits the
re-write-after-read-write slip in `StageInfo.__init__`. -/
def wrRdWrOps : List OpInfo :=
  [⟨"MxV", "s", "d", [⟨"WR", "a"⟩, ⟨"RD", "a"⟩, ⟨"WR", "a"⟩]⟩]

/-! ## Watermarks: `LocToMaxIterIterator.max_iter_gen` (pipeline.py 268-301)

`max_iter_gen` is a two-way generator fed one observed write location per
`handle_write` call.  It walks the enumeration of the `loc_to_max_iter`
relation — a list of `(trigger location, bound)` pairs — cyclically over
outer passes (`for inp in itertools.count()`), and on a write equal to the
current expected trigger it sets `obj_max_iter[obj] := (inp,) + bound` and
advances to the next pair.  A mismatched write is discarded.

We model the generator state by the number `k` of matched writes so far:
the expected pair is `pairs[k % n]`, the current outer pass is `k / n`,
and the stored watermark is set exactly at a match. -/

structure WmState where
  k : Nat
  cur : Option Idx
deriving DecidableEq, Repr

/-- Initial generator state: no write matched yet, `obj_max_iter[obj] = None`
(pipeline.py line 261). -/
def wmInit : WmState := ⟨0, none⟩

/-- `LocToMaxIterIterator.handle_write` → one `send` into `max_iter_gen`
(pipeline.py lines 275-301): a write equal to the expected trigger sets
the watermark to the bound prefixed by the outer-pass counter and advances
the cursor; any other write leaves the state unchanged. -/
def wmStep (pairs : List (Idx × Idx)) (s : WmState) (w : Idx) : WmState :=
  match pairs.get? (s.k % pairs.length) with
  | none => s
  | some (trig, bound) =>
    if w = trig then
      ⟨s.k + 1, some (((s.k / pairs.length : Nat) : Int) :: bound)⟩
    else s

/-- Deliver a sequence of writes to the watermark generator. -/
def wmRun (pairs : List (Idx × Idx)) (s : WmState) (ws : List Idx) : WmState :=
  ws.foldl (wmStep pairs) s

/-- The watermark value recorded at the `j`-th match:
outer-pass counter `j / n` prefixed to the bound of pair `j % n`. -/
def wmValAt (pairs : List (Idx × Idx)) (j : Nat) : Idx :=
  ((j / pairs.length : Nat) : Int) :: (pairs.getD (j % pairs.length) ([], [])).2

/-- Modelled from the spec: the `loc_to_max_iter` relations are produced by
`isl_rel_loc_to_max_iter` (in `isl_utils`, not part of the sources under
verification).  Per the spec (§4.3) each enumerated pair maps a written
location to "the maximum consumer iteration now fully supported", so along
the canonical enumeration order the bounds are lexicographically
non-decreasing. -/
def boundsMonotone (pairs : List (Idx × Idx)) : Prop :=
  pairs.Pairwise (fun p q => lexLe p.2 q.2 = true)

/-! ## numpy arrays and the Core (pipeline.py 494-669)

An array is a shape plus a row-major flat data list.  Indexing follows
numpy: the index tuple must have one component per dimension, each
component `i` with `-s <= i < s` (negative components wrap), otherwise
an `IndexError`. -/

structure NpArr where
  shape : List Nat
  data : List Val
deriving DecidableEq, Repr

/-- Resolve an index tuple against a shape: rank check plus per-component
bounds check with negative wrap-around.  `none` models `IndexError` /
the rank `assert`s. -/
def resolveIdx : List Nat → Idx → Option (List Nat)
  | [], [] => some []
  | s :: ss, i :: rest =>
    if -(s : Int) ≤ i ∧ i < (s : Int) then
      match resolveIdx ss rest with
      | some c => some ((if i < 0 then i + s else i).toNat :: c)
      | none => none
    else none
  | _, _ => none

/-- Row-major flat offset of a resolved index. -/
def flatOff (shape comps : List Nat) : Nat :=
  (List.zip shape comps).foldl (fun a p => a * p.1 + p.2) 0

/-- `obj[idx]` read; `none` is an `IndexError`. -/
def getV (a : NpArr) (idx : Idx) : Option Val :=
  match resolveIdx a.shape idx with
  | some c => a.data.get? (flatOff a.shape c)
  | none => none

/-- `obj[idx] = v` write; `none` is an `IndexError`. -/
def setV (a : NpArr) (idx : Idx) (v : Val) : Option NpArr :=
  match resolveIdx a.shape idx with
  | some c =>
    if flatOff a.shape c < a.data.length then
      some { a with data := a.data.set (flatOff a.shape c) v }
    else none
  | none => none

/-- `ExecOp` (pipeline.py 188-197): operation kind plus the per-object
resolved access lists, `accesses['RD']` and `accesses['WR']` (dicts
modelled as ordered association lists). -/
structure ExecOp where
  ty : String
  rdAcc : List (String × List Idx)
  wrAcc : List (String × List Idx)
deriving DecidableEq, Repr

structure Core where
  xbar : Option (List (List Val))
  objs : List (String × NpArr)
  internalObjs : List (String × NpArr)
deriving DecidableEq, Repr

/-- `Core.read_object` (pipeline.py 569-586): the object is looked up
among the core-local objects, then the internal ones; the listed indices
are gathered into a vector. -/
def readObject (c : Core) (objstr : String) (rdIs : List Idx) :
    Except String (List Val) := do
  let obj ←
    match alookup c.objs objstr with
    | some o => Except.ok o
    | none =>
      match alookup c.internalObjs objstr with
      | some o => Except.ok o
      | none => Except.error "object not found in local or intermediate"
  rdIs.mapM (fun idx =>
    match getV obj idx with
    | some v => Except.ok v
    | none => Except.error "read access out of bounds")

def dotProd (r x : List Val) : Val := (List.zipWith (· * ·) r x).sum

/-- `np.matmul` of a matrix with a vector. -/
def matmul (m : List (List Val)) (x : List Val) :
    Except String (List Val) :=
  if m.all (fun r => r.length = x.length) then
    .ok (m.map (fun r => dotProd r x))
  else .error "matmul shape mismatch"

/-- `np.add` on vectors (with the length-1 broadcast numpy applies). -/
def npAdd (x1 x2 : List Val) : Except String (List Val) :=
  if x1.length = x2.length then .ok (List.zipWith (· + ·) x1 x2)
  else
    match x1, x2 with
    | [v], l => .ok (l.map (fun w => v + w))
    | l, [v] => .ok (l.map (fun w => w + v))
    | _, _ => .error "operands could not be broadcast"

/-- The result map accumulated by `execute_ops` / `validate_ops`:
object → list of (write index, value); `validate_ops` leaves the values
unset (`none`). -/
abbrev Res := List (String × List (Idx × Option Val))

/-- `Core.handle_op_output` (pipeline.py 588-609): writes to an internal
object are applied in place immediately; writes to an external object are
accumulated into the result map (at most one entry per object). -/
def handleOpOutput (c : Core) (results : Res) (objstr : String)
    (wrIs : List Idx) (wrVs : List Val) : Except String (Core × Res) :=
  match alookup c.internalObjs objstr with
  | some obj =>
    match (List.zip wrIs wrVs).foldlM
        (fun (o : NpArr) (p : Idx × Val) =>
          match setV o p.1 p.2 with
          | some o' => Except.ok o'
          | none => Except.error "internal write out of bounds") obj with
    | .ok obj' =>
      .ok ({ c with internalObjs := aupd c.internalObjs objstr obj' }, results)
    | .error e => .error e
  | none =>
    if (alookup results objstr).isSome then
      .error "assert: objstr not in results"
    else
      .ok (c, results ++
        [(objstr, (List.zip wrIs wrVs).map (fun p => (p.1, some p.2)))])

/-- One operation of `Core.execute_ops` (pipeline.py 625-656). -/
def execOp (xm : List (List Val)) (acc : Core × Res) (op : ExecOp) :
    Except String (Core × Res) :=
  if op.ty = "MxV" then
    match op.rdAcc with
    | [(rdObj, rdIs)] => do
      let x ← readObject acc.1 rdObj rdIs
      let y ← matmul xm x
      op.wrAcc.foldlM
        (fun (cr : Core × Res) (w : String × List Idx) =>
          handleOpOutput cr.1 cr.2 w.1 w.2 y) acc
    | _ => .error "MxV: expecting 1 read argument"
  else if op.ty = "ADD" then
    match op.rdAcc with
    | [(o1, is1), (o2, is2)] => do
      let x1 ← readObject acc.1 o1 is1
      let x2 ← readObject acc.1 o2 is2
      let y ← npAdd x1 x2
      op.wrAcc.foldlM
        (fun (cr : Core × Res) (w : String × List Idx) =>
          handleOpOutput cr.1 cr.2 w.1 w.2 y) acc
    | _ => .error "ADD: expecting 2 read arguments"
  else .error "Unknown operation"

/-- `Core.execute_ops` (pipeline.py 612-658). -/
def executeOps (c : Core) (ops : List ExecOp) :
    Except String (Core × Res) :=
  match c.xbar with
  | none => .error "core xbar matrix is undefined"
  | some xm =>
    match ops with
    | [] => .error "IndexError: ops[0]"
    | op0 :: _ =>
      if op0.ty ≠ "MxV" then
        .error "assert: First operation should be on the crossbar"
      else ops.foldlM (execOp xm) (c, [])

/-- The write-echo step of `validate_ops` (pipeline.py 563-565): assert
the object is not yet in the result, then append its write index list
paired with unset values. -/
def vwrStep (ret : Res) (wa : String × List Idx) : Except String Res :=
  if (alookup ret wa.1).isSome then
    .error "assert: wr_objstr not in ret"
  else
    .ok (ret ++ [(wa.1, wa.2.map (fun i => (i, (none : Option Val))))])

/-- The body of `validate_ops`' read-access loop (pipeline.py 552-565):
the read object must exist in the core, every read index must be in
bounds, and then — nested INSIDE this read-access loop, as in the
source — the operation's write accesses are echoed. -/
def vrdStep (c : Core) (op : ExecOp) (ret : Res) (ra : String × List Idx) :
    Except String Res := do
  let obj ←
    match alookup c.objs ra.1 with
    | some o => Except.ok o
    | none => Except.error "object does not exist in this core"
  _ ← ra.2.foldlM (fun (_ : Unit) idx =>
    match getV obj idx with
    | some _ => Except.ok ()
    | none => Except.error "Failed to access object") ()
  op.wrAcc.foldlM vwrStep ret

/-- `Core.validate_ops` (pipeline.py 542-567): a fold of the read-access
loop over every operation of the joined step. -/
def validateOps (c : Core) (ops : List ExecOp) : Except String Res :=
  ops.foldlM (fun ret op => op.rdAcc.foldlM (vrdStep c op) ret) []

/-- The write entries `validate_ops` returns for one write access:
indices paired with unset (`None`) values. -/
def echoEntry (wa : String × List Idx) : String × List (Idx × Option Val) :=
  (wa.1, wa.2.map (fun i => (i, (none : Option Val))))

/-- The write entries one operation contributes to a successful
`validate_ops`: its write accesses echoed once if it has at least one
read access (the echo loop sits inside the read loop), else nothing. -/
def echoWrites (op : ExecOp) : Res :=
  if op.rdAcc.isEmpty then [] else op.wrAcc.map echoEntry

/-! ## Objects and pipeline wiring (pipeline.py 671-760) -/

/-- `Object` (pipeline.py 671-707): optional reader and writer stage
names (the shape metadata is irrelevant to the wiring claims). -/
structure PObject where
  reader : Option String
  writer : Option String
deriving DecidableEq, Repr

/-- `Object.set_reader` (pipeline.py 694-698): only one reader allowed. -/
def setReader (o : PObject) (stagename : String) : Except String PObject :=
  match o.reader with
  | some _ => .error "there is already a reader set"
  | none => .ok { o with reader := some stagename }

/-- `Object.set_writer` (pipeline.py 700-704): only one writer allowed. -/
def setWriter (o : PObject) (stagename : String) : Except String PObject :=
  match o.writer with
  | some _ => .error "there is already a writer set"
  | none => .ok { o with writer := some stagename }

abbrev ObjMap := List (String × PObject)

/-- `self.p_objs[o].set_reader(stname)` with the membership check of
pipeline.py lines 743-747. -/
def setReaderM (m : ObjMap) (stname o : String) : Except String ObjMap :=
  match alookup m o with
  | none => .error "Object read by stage, but not provided in initialization"
  | some obj => do
    let obj' ← setReader obj stname
    .ok (aupd m o obj')

/-- `self.p_objs[o].set_writer(stname)` with the membership check of
pipeline.py lines 749-753. -/
def setWriterM (m : ObjMap) (stname o : String) : Except String ObjMap :=
  match alookup m o with
  | none => .error "Object written by stage, but not provided in initialization"
  | some obj => do
    let obj' ← setWriter obj stname
    .ok (aupd m o obj')

/-- The per-stage inputs to the pipeline wiring loop: name and the three
object-name sets from the stage's `StageInfo`. -/
structure StageDecl where
  name : String
  ro : List String
  wo : List String
  rw : List String
deriving DecidableEq, Repr

/-- One iteration of the dependency-discovery loop of `Pipeline.__init__`
(pipeline.py 742-760): register the stage as reader of its ro objects,
writer of its wo objects, and both for its rw (internal) objects. -/
def wireStage (m : ObjMap) (st : StageDecl) : Except String ObjMap := do
  let m ← st.ro.foldlM (fun m o => setReaderM m st.name o) m
  let m ← st.wo.foldlM (fun m o => setWriterM m st.name o) m
  st.rw.foldlM (fun m o => do
    let m' ← setReaderM m st.name o
    setWriterM m' st.name o) m

/-- The full wiring loop over all stages. -/
def wireStages (m : ObjMap) (sts : List StageDecl) : Except String ObjMap :=
  sts.foldlM wireStage m

/-! ## Stage tick and reads_ready (pipeline.py 256-315, 435-483) -/

/-- One tracked input object's watermark machinery: the enumerated
`loc_to_max_iter` relation and the generator state. -/
structure WmEntry where
  pairs : List (Idx × Idx)
  st : WmState
deriving DecidableEq, Repr

/-- `LocToMaxIterIterator.reads_ready` (pipeline.py 303-315):
`all(obj_rdy(idx, o, max_i) ...)` over the tracked objects, where an
unset watermark gives `False`, a set one asserts equal lengths and then
compares `idx <= max_iter`.  Python's `all` over a generator
short-circuits, so objects after the first not-ready one are not
examined (and their length asserts do not fire). -/
def readsReady (wm : List (String × WmEntry)) (idx : Idx) :
    Except String Bool :=
  match wm with
  | [] => .ok true
  | (_, e) :: rest =>
    match e.st.cur with
    | none => .ok false
    | some m =>
      if idx.length ≠ m.length then .error "assert: len(idx) == len(max_iter)"
      else if lexLe idx m then readsReady rest idx
      else .ok false

/-- A pending write record `(object name, write index, optional value)`
as buffered by `Pipeline.handle_write`. -/
abbrev WriteRec := String × Idx × Option Val

/-- The per-stage state driving `Stage.tick_gen`: the joined iteration
stream produced by `AccessIterator.loop` (a finite list: the stream under
the caller's `loop_inp_limit`), the position in it, the core, and the
watermark state per tracked read object (`LocToMaxIterIterator`). -/
structure StageSt where
  name : String
  roObjs : List String
  iters : List (Idx × List ExecOp)
  pos : Nat
  core : Core
  wm : List (String × WmEntry)
deriving DecidableEq, Repr

/-- Execute or validate one joined iteration's operations
(`Stage.tick_gen` lines 474-477). -/
def runOps (execF : Bool) (c : Core) (ops : List ExecOp) :
    Except String (Core × Res) :=
  if execF then executeOps c ops
  else do
    let r ← validateOps c ops
    .ok (c, r)

/-- `Stage.issue_write` → `Pipeline.handle_write` (pipeline.py 479-481,
812-814): every produced external write is checked against the registered
writer of the object and appended to the pipeline's pending-write
buffer. -/
def issueWrites (pObjs : ObjMap) (stname : String) (res : Res) :
    Except String (List WriteRec) :=
  res.foldlM (fun (acc : List WriteRec) (p : String × List (Idx × Option Val)) => do
    let o ←
      match alookup pObjs p.1 with
      | some o => Except.ok o
      | none => Except.error "KeyError: p_objs"
    if o.writer = some stname then
      Except.ok (acc ++ p.2.map (fun q => (p.1, q.1, q.2)))
    else Except.error "assert: stage is the registered writer")
    []

/-- One resumption of `Stage.tick_gen` for one global tick (pipeline.py
463-483).  Returns `none` when the iteration stream is exhausted
(`StopIteration`); otherwise the per-tick report (executed iteration
index, or `none` if stalled), the successor stage state, and the writes
issued to the pipeline buffer.  A stalled tick changes nothing and
issues nothing; a ready tick runs the operations and advances past the
iteration. -/
def stageTickStep (execF : Bool) (pObjs : ObjMap) (s : StageSt) :
    Except String (Option (Option Idx × StageSt × List WriteRec)) :=
  match s.iters.get? s.pos with
  | none => .ok none
  | some (idx, ops) => do
    let rdy ← readsReady s.wm idx
    if rdy then do
      let cr ← runOps execF s.core ops
      let ws ← issueWrites pObjs s.name cr.2
      .ok (some (some idx, { s with pos := s.pos + 1, core := cr.1 }, ws))
    else
      .ok (some (none, s, []))

/-! ## Pipeline tick (pipeline.py 709-884) -/

structure PipeSt where
  pObjs : ObjMap
  stages : List StageSt
  live : List String
  orphans : List (String × NpArr)
  writes : List WriteRec
  execF : Bool
  nticks : Nat
deriving DecidableEq, Repr

/-- The stage-ticking pass of `Pipeline.tick` (pipeline.py 859-870):
every live stage is resumed exactly once, in order; an exhausted stage is
removed from the live set and reported as `None`; issued writes are
buffered, in order.  Returns the updated stage list, the new live set,
the per-stage tick report, and the writes issued during the pass. -/
def goStages (execF : Bool) (pObjs : ObjMap) (live : List String) :
    List StageSt →
    Except String (List StageSt × List String × List (String × Option Idx) × List WriteRec)
  | [] => .ok ([], [], [], [])
  | st :: rest =>
    if st.name ∈ live then
      match stageTickStep execF pObjs st with
      | .error e => .error e
      | .ok none => do
        let (sts, lv, rets, ws) ← goStages execF pObjs live rest
        .ok (st :: sts, lv, (st.name, none) :: rets, ws)
      | .ok (some (r, st', w)) => do
        let (sts, lv, rets, ws) ← goStages execF pObjs live rest
        .ok (st' :: sts, st.name :: lv, (st.name, r) :: rets, w ++ ws)
    else do
      let (sts, lv, rets, ws) ← goStages execF pObjs live rest
      .ok (st :: sts, lv, rets, ws)

/-- `Stage.write_callback` (pipeline.py 444-461): the write must be to an
object the stage reads; the value is applied (`Core.write_obj`) or merely
validated (`Core.validate_write`), then the object's watermark generator
consumes the write location. -/
def writeCallback (st : StageSt) (objstr : String) (idx : Idx)
    (val : Option Val) : Except String StageSt :=
  if objstr ∈ st.roObjs then do
    let obj ←
      match alookup st.core.objs objstr with
      | some o => Except.ok o
      | none => Except.error "KeyError: core objs"
    let core' ←
      match val with
      | some v =>
        match setV obj idx v with
        | some o' =>
          Except.ok { st.core with objs := aupd st.core.objs objstr o' }
        | none => Except.error "Error accessing object"
      | none =>
        match getV obj idx with
        | some _ => Except.ok st.core
        | none => Except.error "validate_write: IndexError"
    match alookup st.wm objstr with
    | some e =>
      Except.ok { st with
        core := core',
        wm := st.wm.map (fun p =>
          if p.1 = objstr then (p.1, ⟨e.pairs, wmStep e.pairs e.st idx⟩)
          else p) }
    | none => Except.error "KeyError: max_iter_gs"
  else Except.error "assert: wr_objstr in ro_objs"

/-- Run the write-callback on every stage named `r` (the `p_stages[r]`
dict lookup of the source; stage names are unique by construction,
pipeline.py 734-736). -/
def updStages (r objstr : String) (idx : Idx) (val : Option Val) :
    List StageSt → Except String (List StageSt)
  | [] => .ok []
  | s :: rest =>
    if s.name = r then do
      let s' ← writeCallback s objstr idx val
      let rest' ← updStages r objstr idx val rest
      .ok (s' :: rest')
    else do
      let rest' ← updStages r objstr idx val rest
      .ok (s :: rest')

/-- Apply one buffered write during `Pipeline.flush_writes` (pipeline.py
816-831): an object with a reader gets the reader's write-callback; an
orphan object with a concrete value is updated in place; anything else is
dropped. -/
def applyWrite (ps : PipeSt) (w : WriteRec) : Except String PipeSt := do
  let o ←
    match alookup ps.pObjs w.1 with
    | some o => Except.ok o
    | none => Except.error "KeyError: p_objs"
  match o.reader with
  | some r =>
    if ps.stages.any (fun s => s.name = r) then do
      let sts ← updStages r w.1 w.2.1 w.2.2 ps.stages
      .ok { ps with stages := sts }
    else .error "KeyError: p_stages"
  | none =>
    match w.2.2 with
    | some v =>
      match alookup ps.orphans w.1 with
      | some arr =>
        match setV arr w.2.1 v with
        | some arr' => .ok { ps with orphans := aupd ps.orphans w.1 arr' }
        | none => .error "orphan write IndexError"
      | none => .ok ps
    | none => .ok ps

/-- `Pipeline.flush_writes` (pipeline.py 816-833): apply every buffered
write in order, then empty the buffer. -/
def flushWrites (ps : PipeSt) : Except String PipeSt := do
  let ps' ← ps.writes.foldlM applyWrite ps
  .ok { ps' with writes := [] }

/-- `Pipeline.tick` (pipeline.py 849-876): fail with `StopIteration` when
no live stages remain; otherwise tick every live stage once (writes only
buffered), then flush the buffered writes, and count the tick. -/
def tick (ps : PipeSt) :
    Except String (List (String × Option Idx) × PipeSt) :=
  if ps.live = [] then .error "StopIteration: No available stages to execute"
  else do
    let (sts, lv, rets, ws) ← goStages ps.execF ps.pObjs ps.live ps.stages
    let ps2 ← flushWrites { ps with stages := sts, live := lv, writes := ps.writes ++ ws }
    .ok (rets, { ps2 with nticks := ps2.nticks + 1 })

/-- Invariant of the watermark generator: the stored watermark is unset
exactly until the first matched write, and afterwards equals the value
recorded at the most recent match. -/
def wmGood (pairs : List (Idx × Idx)) (s : WmState) : Prop :=
  (s.k = 0 ∧ s.cur = none) ∨
  (0 < s.k ∧ s.cur = some (wmValAt pairs (s.k - 1)))

/-- The object `o` has its writer role taken in the registry `m`. -/
def writerIsSet (m : ObjMap) (o : String) : Prop :=
  ∃ obj, alookup m o = some obj ∧ obj.writer ≠ none

/-- The stage-state components a flush may never touch: identity and the
position in the joined iteration stream. -/
def stageFrameR (s1 s0 : StageSt) : Prop :=
  s1.name = s0.name ∧ s1.iters = s0.iters ∧ s1.pos = s0.pos

/-- A stalled stage for the C5 witness: one tracked object with an unset
watermark. -/
def stallStage : StageSt :=
  ⟨"s1", ["x"], [([0], [])], 0, ⟨none, [], []⟩,
   [("x", ⟨[([0], [0])], ⟨0, none⟩⟩)]⟩

/-- A ready stage for the C5 witness: no tracked objects, one trivial
joined iteration. -/
def readyStage : StageSt :=
  ⟨"s1", [], [([0], [])], 0, ⟨none, [], []⟩, []⟩

/-- The stage-state components the stage-ticking pass may never touch:
identity, the external (core-local) object arrays, and the watermark
states. -/
def stageObjsR (s1 s0 : StageSt) : Prop :=
  s1.name = s0.name ∧ s1.core.objs = s0.core.objs ∧ s1.wm = s0.wm

/-- A one-stage, validate-mode pipeline for the C1 witness: the stage
reads `x` (no writer: no tracked watermark) and writes the orphan-less
object `y`. -/
def tickExStage : StageSt :=
  ⟨"s1", ["x"], [([0], [⟨"MxV", [("x", [[0]])], [("y", [[0]])]⟩])], 0,
   ⟨none, [("x", ⟨[1], [0]⟩)], []⟩, []⟩

def tickExPipe : PipeSt :=
  ⟨[("x", ⟨some "s1", none⟩), ("y", ⟨none, some "s1"⟩)],
   [tickExStage], ["s1"], [("y", ⟨[1], [0]⟩)], [], false, 0⟩

def tickExPipeOut : PipeSt :=
  ⟨[("x", ⟨some "s1", none⟩), ("y", ⟨none, some "s1"⟩)],
   [⟨"s1", ["x"], [([0], [⟨"MxV", [("x", [[0]])], [("y", [[0]])]⟩])], 1,
     ⟨none, [("x", ⟨[1], [0]⟩)], []⟩, []⟩],
   ["s1"], [("y", ⟨[1], [0]⟩)], [], false, 1⟩

/-! ## Theorems -/

/-- C7: the claim says that for every operation list accepted by
`StageInfo.__init__` the sets `ro_objs`/`wo_objs`/`rw_objs` are pairwise
disjoint.  The code violates it: because line 110 of pipeline.py repeats
the `ro_objs` test instead of testing `rw_objs` (as its own error message
"previously write and read" says it should), the access sequence
`WR a, RD a, WR a` is accepted and leaves `a` in both `wo_objs` and
`rw_objs`.  This theorem evaluates the embedded constructor at that
failing input: construction succeeds and the resulting `wo_objs` and
`rw_objs` (both `["a"]`) are not disjoint. -/
theorem stageinfo_partition_violated :
    stageInfoInit wrRdWrOps = .ok ⟨[], ["a"], ["a"]⟩ ∧
    ¬ List.Disjoint (["a"] : List String) ["a"] := by
  refine ⟨by decide, fun h => ?_⟩
  exact h (a := "a") (by simp) (by simp)

/-- C8: `StageInfo.__init__` fails on an empty operation list, on a first
operation whose kind is not `MxV`, and on a `WRITE` access (during the
left-to-right scan) whose object is already in `wo_objs` or `ro_objs`;
the last conjunct checks a full construction hitting the double-write
condition.  Under none of these conditions does construction succeed. -/
theorem stageinfo_error_conditions :
    exOk (stageInfoInit []) = false ∧
    (∀ op0 rest, op0.op_ty ≠ "MxV" → exOk (stageInfoInit (op0 :: rest)) = false) ∧
    (∀ si acc, acc.a_ty = "WR" →
      acc.obj ∈ si.wo_objs ∨ acc.obj ∈ si.ro_objs →
      exOk (procAcc si acc) = false) ∧
    exOk (stageInfoInit [⟨"MxV", "s", "d", [⟨"WR", "a"⟩, ⟨"WR", "a"⟩]⟩]) = false := by
  refine ⟨rfl, ?_, ?_, by decide⟩
  · intro op0 rest h
    simp only [stageInfoInit]
    rw [if_pos h]
    rfl
  · intro si acc hty hmem
    have h1 : ¬ acc.a_ty = "RD" := by rw [hty]; decide
    simp only [procAcc]
    rw [if_neg h1, if_pos hty]
    by_cases hwo : acc.obj ∈ si.wo_objs
    · rw [if_pos hwo]; rfl
    · rw [if_neg hwo, if_pos (hmem.resolve_left hwo)]; rfl

/-- C8 witness: a stage whose first operation is `ADD` is rejected, and a
`WR` access on an object already in `wo_objs` is rejected. -/
theorem stageinfo_error_conditions_witness :
    ((⟨"ADD", "s", "d", []⟩ : OpInfo).op_ty ≠ "MxV" ∧
      exOk (stageInfoInit [⟨"ADD", "s", "d", []⟩]) = false) ∧
    ((⟨"WR", "a"⟩ : IslAccess).a_ty = "WR" ∧
      ("a" ∈ (⟨[], ["a"], []⟩ : StageInfo).wo_objs ∨
        "a" ∈ (⟨[], ["a"], []⟩ : StageInfo).ro_objs) ∧
      exOk (procAcc ⟨[], ["a"], []⟩ ⟨"WR", "a"⟩) = false) :=
  ⟨⟨by decide, stageinfo_error_conditions.2.1 ⟨"ADD", "s", "d", []⟩ [] (by decide)⟩,
   ⟨rfl, Or.inl (by decide),
    stageinfo_error_conditions.2.2.1 ⟨[], ["a"], []⟩ ⟨"WR", "a"⟩ rfl
      (Or.inl (by decide))⟩⟩

/-- C10: an access whose type is neither `RD` nor `WR` is silently
ignored by the classification scan — the `ValueError` on line 113 of
pipeline.py is constructed but never raised — and the accessed object
lands in none of the three sets.  The second conjunct runs a full
construction whose only access has the unknown type `XX`: it succeeds
with all three sets empty. -/
theorem unknown_access_type_ignored :
    (∀ si acc, acc.a_ty ≠ "RD" → acc.a_ty ≠ "WR" → procAcc si acc = .ok si) ∧
    stageInfoInit [⟨"MxV", "s", "d", [⟨"XX", "b"⟩]⟩] = .ok ⟨[], [], []⟩ := by
  refine ⟨?_, by decide⟩
  intro si acc h1 h2
  simp only [procAcc]
  rw [if_neg h1, if_neg h2]

/-- Python tuple `<=` agrees, on equal-length integer tuples, with the
mathematical lexicographic order: strictly `Lex (<)` or equal. -/
theorem lexLe_iff (a b : List Int) (h : a.length = b.length) :
    lexLe a b = true ↔ List.Lex (· < ·) a b ∨ a = b := by
  induction a generalizing b with
  | nil =>
    cases b with
    | nil =>
      constructor
      · intro _; exact Or.inr rfl
      · intro _; rfl
    | cons y ys => simp at h
  | cons x xs ih =>
    cases b with
    | nil => simp at h
    | cons y ys =>
      simp only [List.length_cons, Nat.succ.injEq] at h
      simp only [lexLe]
      rcases lt_trichotomy x y with hlt | heq | hgt
      · rw [if_pos hlt]
        exact iff_of_true rfl (Or.inl (List.Lex.rel hlt))
      · subst heq
        rw [if_neg (lt_irrefl x), if_neg (lt_irrefl x)]
        rw [ih ys h]
        constructor
        · rintro (hl | he)
          · exact Or.inl (List.Lex.cons hl)
          · exact Or.inr (by rw [he])
        · rintro (hl | he)
          · cases hl with
            | cons h' => exact Or.inl h'
            | rel h' => exact absurd h' (lt_irrefl x)
          · injection he with h1 h2
            exact Or.inr h2
      · rw [if_neg (lt_asymm hgt), if_pos hgt]
        constructor
        · intro hfalse; cases hfalse
        · rintro (hl | he)
          · cases hl with
            | cons h' => exact absurd hgt (lt_irrefl x)
            | rel h' => exact absurd h' (lt_asymm hgt)
          · injection he with h1 h2
            exact absurd h1 (ne_of_gt hgt)

/-- C2: `reads_ready(idx)` is true iff, for every object tracked in the
watermark map, the watermark is set and `idx` is lexicographically less
than or equal to it; in particular it is true for any `idx` when the
stage tracks zero objects.  The hypothesis states that the length
`assert` of `obj_rdy` (pipeline.py line 311) holds for every set
watermark. -/
theorem reads_ready_iff (wm : List (String × WmEntry)) (idx : Idx)
    (hlen : ∀ p ∈ wm, ∀ m, p.2.st.cur = some m → m.length = idx.length) :
    (readsReady wm idx = .ok true ↔
      ∀ p ∈ wm, ∃ m, p.2.st.cur = some m ∧
        (List.Lex (· < ·) idx m ∨ idx = m)) ∧
    readsReady [] idx = .ok true := by
  refine ⟨?_, rfl⟩
  revert hlen
  induction wm with
  | nil =>
    intro hlen
    constructor
    · intro _ p hp; cases hp
    · intro _; rfl
  | cons p rest ih =>
    intro hlen
    obtain ⟨o, e⟩ := p
    simp only [readsReady]
    split
    · rename_i hc
      constructor
      · intro h; exact absurd h (by decide)
      · intro h
        obtain ⟨m, hm, _⟩ := h (o, e) (List.mem_cons_self _ _)
        rw [hc] at hm; cases hm
    · rename_i m hc
      have hml : m.length = idx.length :=
        hlen (o, e) (List.mem_cons_self _ _) m hc
      rw [if_neg (not_ne_iff.mpr hml.symm)]
      by_cases hle : lexLe idx m
      · rw [if_pos hle]
        rw [ih (fun q hq m' hm' => hlen q (List.mem_cons_of_mem _ hq) m' hm')]
        constructor
        · intro hall q hq
          rcases List.mem_cons.mp hq with rfl | hq'
          · exact ⟨m, hc, (lexLe_iff idx m hml.symm).mp hle⟩
          · exact hall q hq'
        · intro hall q hq
          exact hall q (List.mem_cons_of_mem _ hq)
      · rw [if_neg hle]
        constructor
        · intro h; exact absurd h (by decide)
        · intro hall
          obtain ⟨m', hm', hlex⟩ := hall (o, e) (List.mem_cons_self _ _)
          rw [hc] at hm'
          injection hm' with hm'
          rw [← hm'] at hlex
          exact absurd ((lexLe_iff idx m hml.symm).mpr hlex) hle

/-- C2 witness: one tracked object with watermark `(1, 3)`, iteration
index `(1, 2)`: the lengths match, the watermark is set and dominates
the index lexicographically, and `reads_ready` is true. -/
theorem reads_ready_iff_witness :
    readsReady [("x", ⟨[], ⟨1, some [1, 3]⟩⟩)] [1, 2] = .ok true :=
  ((reads_ready_iff [("x", ⟨[], ⟨1, some [1, 3]⟩⟩)] [1, 2]
    (by
      intro p hp m hm
      rcases List.mem_cons.mp hp with rfl | hq
      · simp at hm; rw [← hm]; rfl
      · cases hq)).1).mpr
    (by
      intro p hp
      rcases List.mem_cons.mp hp with rfl | hq
      · exact ⟨[1, 3], rfl, Or.inl (List.Lex.cons (List.Lex.rel (by decide)))⟩
      · cases hq)

theorem lexLe_refl (l : List Int) : lexLe l l = true := by
  induction l with
  | nil => rfl
  | cons x xs ih =>
    simp only [lexLe]
    rw [if_neg (lt_irrefl x), if_neg (lt_irrefl x)]
    exact ih

/-- The matched-write counter never decreases on a `handle_write`. -/
theorem wmStep_k_le (pairs : List (Idx × Idx)) (s : WmState) (w : Idx) :
    s.k ≤ (wmStep pairs s w).k := by
  simp only [wmStep]
  split
  · exact le_refl _
  · split
    · exact Nat.le_succ _
    · exact le_refl _

theorem wmRun_k_le (pairs : List (Idx × Idx)) (s : WmState) (ws : List Idx) :
    s.k ≤ (wmRun pairs s ws).k := by
  induction ws generalizing s with
  | nil => exact le_refl _
  | cons w rest ih =>
    exact Nat.le_trans (wmStep_k_le pairs s w) (ih (wmStep pairs s w))

theorem wmRun_append (pairs : List (Idx × Idx)) (s : WmState)
    (ws1 ws2 : List Idx) :
    wmRun pairs s (ws1 ++ ws2) = wmRun pairs (wmRun pairs s ws1) ws2 :=
  List.foldl_append _ _ _ _

theorem wmStep_good (pairs : List (Idx × Idx)) (s : WmState) (w : Idx)
    (h : wmGood pairs s) : wmGood pairs (wmStep pairs s w) := by
  simp only [wmStep]
  split
  · exact h
  · rename_i trig bound hp
    split
    · right
      refine ⟨Nat.succ_pos _, ?_⟩
      have hgd : pairs.getD (s.k % pairs.length) ([], []) = (trig, bound) := by
        rw [List.getD_eq_get?, hp]
        rfl
      show some _ = some (wmValAt pairs (s.k + 1 - 1))
      rw [Nat.add_sub_cancel]
      simp only [wmValAt, hgd]
    · exact h

theorem wmRun_good (pairs : List (Idx × Idx)) (ws : List Idx) :
    wmGood pairs (wmRun pairs wmInit ws) := by
  have start : wmGood pairs wmInit := Or.inl ⟨rfl, rfl⟩
  revert start
  generalize wmInit = s
  induction ws generalizing s with
  | nil => intro h; exact h
  | cons w rest ih =>
    intro h
    exact ih (wmStep pairs s w) (wmStep_good pairs s w h)

/-- The recorded watermark values are lexicographically non-decreasing in
the match counter, provided the relation's bounds are non-decreasing
along its enumeration. -/
theorem wmValAt_mono (pairs : List (Idx × Idx)) (hn : pairs ≠ [])
    (hb : boundsMonotone pairs) (j j' : Nat) (hj : j ≤ j') :
    lexLe (wmValAt pairs j) (wmValAt pairs j') = true := by
  have hlen : 0 < pairs.length := List.length_pos.mpr hn
  have hdiv : j / pairs.length ≤ j' / pairs.length := Nat.div_le_div_right hj
  simp only [wmValAt, lexLe]
  by_cases hlt : ((j / pairs.length : Nat) : Int) < ((j' / pairs.length : Nat) : Int)
  · rw [if_pos hlt]
  · have hed : j / pairs.length = j' / pairs.length := by
      push_cast at hlt
      omega
    rw [if_neg hlt, if_neg (by rw [hed]; exact lt_irrefl _)]
    have hmod : j % pairs.length ≤ j' % pairs.length := by
      have h1 := Nat.div_add_mod j pairs.length
      have h2 := Nat.div_add_mod j' pairs.length
      rw [← hed] at h2
      omega
    rcases lt_or_eq_of_le hmod with hlt2 | heq2
    · have hjm : j % pairs.length < pairs.length := Nat.mod_lt _ hlen
      have hjm' : j' % pairs.length < pairs.length := Nat.mod_lt _ hlen
      have hpw := (List.pairwise_iff_get.mp hb)
        ⟨j % pairs.length, hjm⟩ ⟨j' % pairs.length, hjm'⟩ hlt2
      have hg1 : pairs.getD (j % pairs.length) ([], []) =
          pairs.get ⟨j % pairs.length, hjm⟩ := by
        rw [List.getD_eq_get?, List.get?_eq_get hjm]
        rfl
      have hg2 : pairs.getD (j' % pairs.length) ([], []) =
          pairs.get ⟨j' % pairs.length, hjm'⟩ := by
        rw [List.getD_eq_get?, List.get?_eq_get hjm']
        rfl
      rw [hg1, hg2]
      exact hpw
    · rw [heq2]
      exact lexLe_refl _

/-- C3: watermark monotonicity across any run.  The watermark of a
tracked object, observed after any prefix of the delivered write
sequence, is monotone: once set (`some m`) it remains set at every later
point, with a lexicographically greater-or-equal value.  The hypothesis
`boundsMonotone` is modelled from the spec (the enumeration of the
externally computed `loc_to_max_iter` relation yields non-decreasing
maximum-iteration bounds); `pairs ≠ []` rules out the degenerate
relation on which the generator would never progress. -/
theorem watermark_monotone (pairs : List (Idx × Idx)) (hn : pairs ≠ [])
    (hb : boundsMonotone pairs) (ws1 ws2 : List Idx) (m : Idx)
    (hm : (wmRun pairs wmInit ws1).cur = some m) :
    ∃ m', (wmRun pairs wmInit (ws1 ++ ws2)).cur = some m' ∧
      lexLe m m' = true := by
  have g1 := wmRun_good pairs ws1
  have g2 := wmRun_good pairs (ws1 ++ ws2)
  have hk2 : (wmRun pairs wmInit ws1).k ≤ (wmRun pairs wmInit (ws1 ++ ws2)).k := by
    rw [wmRun_append]
    exact wmRun_k_le pairs _ ws2
  rcases g1 with ⟨_, hc0⟩ | ⟨hk1, hc1⟩
  · rw [hm] at hc0; cases hc0
  · have hmv : m = wmValAt pairs ((wmRun pairs wmInit ws1).k - 1) := by
      rw [hm] at hc1
      injection hc1
    rcases g2 with ⟨hz, _⟩ | ⟨hk1', hc1'⟩
    · omega
    · refine ⟨_, hc1', ?_⟩
      rw [hmv]
      exact wmValAt_mono pairs hn hb _ _ (by omega)

/-- C3 witness: relation `[(0 ↦ 0), (1 ↦ 1)]`, first write `0` matched,
then write `1` delivered: the watermark moves from `(0,0)` upward. -/
theorem watermark_monotone_witness :
    ∃ m', (wmRun [([0], [0]), ([1], [1])] wmInit ([[0]] ++ [[1]])).cur = some m' ∧
      lexLe [0, 0] m' = true :=
  watermark_monotone [([0], [0]), ([1], [1])] (by decide)
    (by unfold boundsMonotone; decide) [[0]] [[1]] [0, 0] (by decide)

/-- C4: one `handle_write` on a tracked object.  If the delivered
location differs from the next expected trigger, the watermark and the
expectation cursor are unchanged (and nothing is raised); if it matches,
the watermark becomes the associated bound prefixed by the outer-pass
counter and the cursor advances to the next pair. -/
theorem watermark_step_cases (pairs : List (Idx × Idx)) (s : WmState)
    (w trig bound : Idx)
    (hp : pairs.get? (s.k % pairs.length) = some (trig, bound)) :
    (w ≠ trig → wmStep pairs s w = s) ∧
    (w = trig → wmStep pairs s w =
      ⟨s.k + 1, some (((s.k / pairs.length : Nat) : Int) :: bound)⟩) := by
  constructor
  · intro hne
    simp only [wmStep, hp]
    rw [if_neg hne]
  · intro heq
    simp only [wmStep, hp]
    rw [if_pos heq]

/-- C4 witness: with expected trigger `(0)` and bound `(5)`, the
mismatched write `(9)` changes nothing; the matching write `(0)` sets
the watermark to `(0, 5)` and advances the cursor. -/
theorem watermark_step_cases_witness :
    wmStep [([0], [5]), ([1], [7])] ⟨0, none⟩ [9] = ⟨0, none⟩ ∧
    wmStep [([0], [5]), ([1], [7])] ⟨0, none⟩ [0] = ⟨1, some [0, 5]⟩ :=
  ⟨(watermark_step_cases [([0], [5]), ([1], [7])] ⟨0, none⟩ [9] [0] [5]
      (by decide)).1 (by decide),
   (watermark_step_cases [([0], [5]), ([1], [7])] ⟨0, none⟩ [0] [0] [5]
      (by decide)).2 rfl⟩

theorem error_bind {α β : Type _} (e : String) (f : α → Except String β) :
    (Except.error e >>= f) = Except.error e := rfl

theorem ok_bind {α β : Type _} (a : α) (f : α → Except String β) :
    (Except.ok a >>= f) = f a := rfl

/-- Invariant preservation through an `Except`-valued left fold. -/
theorem foldlM_except_preserve {β α : Type _} (f : β → α → Except String β)
    (P : β → Prop) (hstep : ∀ b a b', P b → f b a = .ok b' → P b') :
    ∀ (l : List α) (b b' : β), P b → List.foldlM f b l = .ok b' → P b' := by
  intro l
  induction l with
  | nil =>
    intro b b' hb h
    simp only [List.foldlM_nil] at h
    injection h with h
    rw [← h]
    exact hb
  | cons a t ih =>
    intro b b' hb h
    rw [List.foldlM_cons] at h
    cases hf : f b a with
    | error e => rw [hf, error_bind] at h; simp at h
    | ok b1 =>
      rw [hf, ok_bind] at h
      exact ih b1 b' (hstep b a b1 hb hf) h

/-- Key-wise description of the dict update `aupd`. -/
theorem alookup_aupd {α : Type _} (m : List (String × α)) (k : String)
    (v : α) (o : String) :
    alookup (aupd m k v) o =
      if o = k then (alookup m o).map (fun _ => v)
      else alookup m o := by
  induction m with
  | nil => by_cases h : o = k <;> simp [aupd, alookup, h]
  | cons p rest ih =>
    obtain ⟨pk, pv⟩ := p
    simp only [aupd, List.map_cons] at ih ⊢
    by_cases hpk : pk = k
    · rw [show (if (pk, pv).1 = k then (k, v) else (pk, pv)) = (k, v) from if_pos hpk]
      simp only [alookup]
      by_cases hok : o = k
      · rw [if_pos hok, if_pos hok, if_pos (hok.trans hpk.symm)]
        rfl
      · rw [if_neg hok, if_neg hok, ih, if_neg hok,
          if_neg (fun h => hok (h.trans hpk))]
    · rw [show (if (pk, pv).1 = k then (k, v) else (pk, pv)) = (pk, pv) from if_neg hpk]
      simp only [alookup]
      by_cases hok : o = pk
      · have hek : ¬ o = k := fun h => hpk (hok.symm.trans h)
        rw [if_neg hek, if_pos hok, if_pos hok]
      · rw [if_neg hok, if_neg hok, ih]

theorem setWriterM_fail (m : ObjMap) (n o : String) (h : writerIsSet m o) :
    exOk (setWriterM m n o) = false := by
  obtain ⟨obj, hl, hw⟩ := h
  cases hwv : obj.writer with
  | none => exact absurd hwv hw
  | some x =>
    simp only [setWriterM, hl, setWriter, hwv, error_bind]
    rfl

theorem setWriterM_preserve (m : ObjMap) (n x o : String) (m' : ObjMap)
    (hok : setWriterM m n x = .ok m') (hw : writerIsSet m o) :
    writerIsSet m' o := by
  obtain ⟨ob, hlo, hwo⟩ := hw
  cases hl : alookup m x with
  | none =>
    simp only [setWriterM, hl] at hok
    exact Except.noConfusion hok
  | some obj =>
    cases hwv : obj.writer with
    | some y =>
      simp only [setWriterM, hl, setWriter, hwv, error_bind] at hok
      exact Except.noConfusion hok
    | none =>
      simp only [setWriterM, hl, setWriter, hwv, ok_bind] at hok
      injection hok with hok
      rw [← hok]
      by_cases hox : o = x
      · exact ⟨{ obj with writer := some n },
          by rw [alookup_aupd, if_pos hox, hlo]; rfl, by simp⟩
      · exact ⟨ob, by rw [alookup_aupd, if_neg hox]; exact hlo, hwo⟩

theorem setWriterM_sets (m : ObjMap) (n x : String) (m' : ObjMap)
    (hok : setWriterM m n x = .ok m') : writerIsSet m' x := by
  cases hl : alookup m x with
  | none =>
    simp only [setWriterM, hl] at hok
    exact Except.noConfusion hok
  | some obj =>
    cases hwv : obj.writer with
    | some y =>
      simp only [setWriterM, hl, setWriter, hwv, error_bind] at hok
      exact Except.noConfusion hok
    | none =>
      simp only [setWriterM, hl, setWriter, hwv, ok_bind] at hok
      injection hok with hok
      rw [← hok]
      exact ⟨{ obj with writer := some n },
        by rw [alookup_aupd, if_pos rfl, hl]; rfl, by simp⟩

theorem setReaderM_preserve (m : ObjMap) (n x o : String) (m' : ObjMap)
    (hok : setReaderM m n x = .ok m') (hw : writerIsSet m o) :
    writerIsSet m' o := by
  obtain ⟨ob, hlo, hwo⟩ := hw
  cases hl : alookup m x with
  | none =>
    simp only [setReaderM, hl] at hok
    exact Except.noConfusion hok
  | some obj =>
    cases hrv : obj.reader with
    | some y =>
      simp only [setReaderM, hl, setReader, hrv, error_bind] at hok
      exact Except.noConfusion hok
    | none =>
      simp only [setReaderM, hl, setReader, hrv, ok_bind] at hok
      injection hok with hok
      rw [← hok]
      by_cases hox : o = x
      · have hco : ob = obj := by
          rw [hox] at hlo
          rw [hlo] at hl
          injection hl
        exact ⟨{ obj with reader := some n },
          by rw [alookup_aupd, if_pos hox, hlo]; rfl,
          by intro h; exact hwo (by rw [hco]; exact h)⟩
      · exact ⟨ob, by rw [alookup_aupd, if_neg hox]; exact hlo, hwo⟩

theorem foldlM_setWriter_establishes (n : String) :
    ∀ (l : List String) (m m' : ObjMap) (o : String), o ∈ l →
      List.foldlM (fun mm x => setWriterM mm n x) m l = .ok m' →
      writerIsSet m' o := by
  intro l
  induction l with
  | nil => intro m m' o ho; cases ho
  | cons h t ih =>
    intro m m' o ho hok
    rw [List.foldlM_cons] at hok
    cases hf : setWriterM m n h with
    | error e => rw [hf, error_bind] at hok; simp at hok
    | ok m1 =>
      rw [hf, ok_bind] at hok
      rcases List.mem_cons.mp ho with rfl | ht
      · exact foldlM_except_preserve _ (fun mm => writerIsSet mm o)
          (fun b a b' hb hf' => setWriterM_preserve b n a o b' hf' hb)
          t m1 m' (setWriterM_sets m n o m1 hf) hok
      · exact ih m1 m' o ht hok

theorem foldlM_setWriter_fails (n : String) :
    ∀ (l : List String) (m : ObjMap) (o : String), o ∈ l → writerIsSet m o →
      exOk (List.foldlM (fun mm x => setWriterM mm n x) m l) = false := by
  intro l
  induction l with
  | nil => intro m o ho; cases ho
  | cons h t ih =>
    intro m o ho hw
    rw [List.foldlM_cons]
    cases hf : setWriterM m n h with
    | error e => rw [error_bind]; rfl
    | ok m1 =>
      rw [ok_bind]
      rcases List.mem_cons.mp ho with rfl | ht
      · have hfail := setWriterM_fail m n o hw
        rw [hf] at hfail
        simp [exOk] at hfail
      · exact ih m1 o ht (setWriterM_preserve m n h o m1 hf hw)

/-- Successful wiring of a stage keeps every already-set writer set. -/
theorem wireStage_preserve (st : StageDecl) (m m' : ObjMap) (o : String)
    (hok : wireStage m st = .ok m') (hw : writerIsSet m o) :
    writerIsSet m' o := by
  simp only [wireStage] at hok
  cases hf1 : st.ro.foldlM (fun mm x => setReaderM mm st.name x) m with
  | error e => rw [hf1, error_bind] at hok; simp at hok
  | ok m1 =>
    rw [hf1, ok_bind] at hok
    have hw1 : writerIsSet m1 o :=
      foldlM_except_preserve _ (fun mm => writerIsSet mm o)
        (fun b a b' hb hf' => setReaderM_preserve b st.name a o b' hf' hb)
        st.ro m m1 hw hf1
    cases hf2 : st.wo.foldlM (fun mm x => setWriterM mm st.name x) m1 with
    | error e => rw [hf2, error_bind] at hok; simp at hok
    | ok m2 =>
      rw [hf2, ok_bind] at hok
      have hw2 : writerIsSet m2 o :=
        foldlM_except_preserve _ (fun mm => writerIsSet mm o)
          (fun b a b' hb hf' => setWriterM_preserve b st.name a o b' hf' hb)
          st.wo m1 m2 hw1 hf2
      refine foldlM_except_preserve _ (fun mm => writerIsSet mm o)
        ?_ st.rw m2 m' hw2 hok
      intro b a b' hb hf'
      cases hg : setReaderM b st.name a with
      | error e => rw [hg, error_bind] at hf'; simp at hf'
      | ok bmid =>
        rw [hg, ok_bind] at hf'
        exact setWriterM_preserve bmid st.name a o b' hf'
          (setReaderM_preserve b st.name a o bmid hg hb)

/-- Successful wiring of a stage registers it as writer of each of its
write-only objects. -/
theorem wireStage_establishes (st : StageDecl) (m m' : ObjMap) (o : String)
    (ho : o ∈ st.wo) (hok : wireStage m st = .ok m') : writerIsSet m' o := by
  simp only [wireStage] at hok
  cases hf1 : st.ro.foldlM (fun mm x => setReaderM mm st.name x) m with
  | error e => rw [hf1, error_bind] at hok; simp at hok
  | ok m1 =>
    rw [hf1, ok_bind] at hok
    cases hf2 : st.wo.foldlM (fun mm x => setWriterM mm st.name x) m1 with
    | error e => rw [hf2, error_bind] at hok; simp at hok
    | ok m2 =>
      rw [hf2, ok_bind] at hok
      have hw2 : writerIsSet m2 o := foldlM_setWriter_establishes st.name st.wo m1 m2 o ho hf2
      refine foldlM_except_preserve _ (fun mm => writerIsSet mm o)
        ?_ st.rw m2 m' hw2 hok
      intro b a b' hb hf'
      cases hg : setReaderM b st.name a with
      | error e => rw [hg, error_bind] at hf'; simp at hf'
      | ok bmid =>
        rw [hg, ok_bind] at hf'
        exact setWriterM_preserve bmid st.name a o b' hf'
          (setReaderM_preserve b st.name a o bmid hg hb)

/-- Wiring a stage that writes an object whose writer is already set
fails. -/
theorem wireStage_fails (st : StageDecl) (m : ObjMap) (o : String)
    (ho : o ∈ st.wo) (hw : writerIsSet m o) :
    exOk (wireStage m st) = false := by
  simp only [wireStage]
  cases hf1 : st.ro.foldlM (fun mm x => setReaderM mm st.name x) m with
  | error e => rw [error_bind]; rfl
  | ok m1 =>
    rw [ok_bind]
    have hw1 : writerIsSet m1 o :=
      foldlM_except_preserve _ (fun mm => writerIsSet mm o)
        (fun b a b' hb hf' => setReaderM_preserve b st.name a o b' hf' hb)
        st.ro m m1 hw hf1
    cases hf2 : st.wo.foldlM (fun mm x => setWriterM mm st.name x) m1 with
    | error e => rw [error_bind]; rfl
    | ok m2 =>
      have hfail := foldlM_setWriter_fails st.name st.wo m1 o ho hw1
      rw [hf2] at hfail
      simp [exOk] at hfail

/-- C9: at most one reader and one writer per object.  `set_writer`
(`set_reader`) on an object whose writer (reader) is already set raises;
consequently, wiring a pipeline whose two stages both declare the same
object as written fails at construction. -/
theorem single_reader_writer :
    (∀ (o : PObject) (s w : String), o.writer = some w →
      exOk (setWriter o s) = false) ∧
    (∀ (o : PObject) (s r : String), o.reader = some r →
      exOk (setReader o s) = false) ∧
    (∀ (m : ObjMap) (s1 s2 : StageDecl) (obj : String),
      obj ∈ s1.wo → obj ∈ s2.wo →
      exOk (wireStages m [s1, s2]) = false) := by
  refine ⟨?_, ?_, ?_⟩
  · intro o s w h
    simp [setWriter, h, exOk]
  · intro o s r h
    simp [setReader, h, exOk]
  · intro m s1 s2 obj h1 h2
    simp only [wireStages, List.foldlM_cons]
    cases hf1 : wireStage m s1 with
    | error e => rw [error_bind]; rfl
    | ok m1 =>
      rw [ok_bind]
      cases hf2 : wireStage m1 s2 with
      | error e => rw [error_bind]; rfl
      | ok m2 =>
        have hfail := wireStage_fails s2 m1 obj h2
          (wireStage_establishes s1 m m1 obj h1 hf1)
        rw [hf2] at hfail
        simp [exOk] at hfail

/-- C9 witness: a second writer (reader) assignment on a concrete object
fails, and wiring two one-object stages that both write `a` fails. -/
theorem single_reader_writer_witness :
    ((⟨none, some "s1"⟩ : PObject).writer = some "s1" ∧
      exOk (setWriter ⟨none, some "s1"⟩ "s2") = false) ∧
    ((⟨some "s1", none⟩ : PObject).reader = some "s1" ∧
      exOk (setReader ⟨some "s1", none⟩ "s2") = false) ∧
    ("a" ∈ (⟨"s1", [], ["a"], []⟩ : StageDecl).wo ∧
      "a" ∈ (⟨"s2", [], ["a"], []⟩ : StageDecl).wo ∧
      exOk (wireStages [("a", ⟨none, none⟩)]
        [⟨"s1", [], ["a"], []⟩, ⟨"s2", [], ["a"], []⟩]) = false) :=
  ⟨⟨rfl, single_reader_writer.1 ⟨none, some "s1"⟩ "s2" "s1" rfl⟩,
   ⟨rfl, single_reader_writer.2.1 ⟨some "s1", none⟩ "s2" "s1" rfl⟩,
   ⟨by decide, by decide,
    single_reader_writer.2.2 [("a", ⟨none, none⟩)]
      ⟨"s1", [], ["a"], []⟩ ⟨"s2", [], ["a"], []⟩ "a" (by decide) (by decide)⟩⟩

theorem alookup_append {α : Type _} (l1 l2 : List (String × α)) (k : String) :
    alookup (l1 ++ l2) k =
      match alookup l1 k with
      | some v => some v
      | none => alookup l2 k := by
  induction l1 with
  | nil => simp [alookup]
  | cons p t ih =>
    by_cases h : k = p.1
    · simp [alookup, h]
    · simp [alookup, h, ih]

theorem vwrFold_ok (l : List (String × List Idx)) :
    ∀ (ret ret' : Res), List.foldlM vwrStep ret l = .ok ret' →
      ret' = ret ++ l.map echoEntry := by
  induction l with
  | nil =>
    intro ret ret' h
    simp only [List.foldlM_nil] at h
    injection h with h
    rw [← h, List.map_nil, List.append_nil]
  | cons wa t ih =>
    intro ret ret' h
    rw [List.foldlM_cons] at h
    cases halo : alookup ret wa.1 with
    | some v =>
      rw [show vwrStep ret wa = .error "assert: wr_objstr not in ret"
        from by simp [vwrStep, halo], error_bind] at h
      exact Except.noConfusion h
    | none =>
      rw [show vwrStep ret wa = .ok (ret ++ [echoEntry wa])
        from by simp [vwrStep, halo, echoEntry], ok_bind] at h
      rw [ih (ret ++ [echoEntry wa]) ret' h, List.append_assoc]
      rfl

theorem vwrFold_cons_not_mem (wa : String × List Idx)
    (t : List (String × List Idx)) (ret ret' : Res)
    (h : List.foldlM vwrStep ret (wa :: t) = .ok ret') :
    alookup ret wa.1 = none := by
  rw [List.foldlM_cons] at h
  cases halo : alookup ret wa.1 with
  | none => rfl
  | some v =>
    rw [show vwrStep ret wa = .error "assert: wr_objstr not in ret"
      from by simp [vwrStep, halo], error_bind] at h
    exact Except.noConfusion h

theorem checkFold_ok (obj : NpArr) (l : List Idx) :
    ∀ (u : Unit), l.foldlM (fun (_ : Unit) idx =>
        match getV obj idx with
        | some _ => Except.ok ()
        | none => Except.error "Failed to access object") () = .ok u →
      ∀ idx ∈ l, (getV obj idx).isSome = true := by
  induction l with
  | nil => intro u _ idx hidx; cases hidx
  | cons i t ih =>
    intro u h idx hidx
    rw [List.foldlM_cons] at h
    cases hg : getV obj i with
    | none =>
      simp only [hg, error_bind] at h
      exact Except.noConfusion h
    | some v =>
      simp only [hg, ok_bind] at h
      rcases List.mem_cons.mp hidx with rfl | hidx'
      · rw [hg]; rfl
      · exact ih u h idx hidx'

theorem vrdStep_reads (c : Core) (op : ExecOp) (ret r1 : Res)
    (ra : String × List Idx) (h : vrdStep c op ret ra = .ok r1) :
    (∃ obj, alookup c.objs ra.1 = some obj ∧
      ∀ idx ∈ ra.2, (getV obj idx).isSome = true) ∧
    r1 = ret ++ op.wrAcc.map echoEntry := by
  simp only [vrdStep] at h
  cases hlo : alookup c.objs ra.1 with
  | none =>
    simp only [hlo, error_bind] at h
    exact Except.noConfusion h
  | some obj =>
    simp only [hlo, ok_bind] at h
    cases hck : ra.2.foldlM (fun (_ : Unit) idx =>
        match getV obj idx with
        | some _ => Except.ok ()
        | none => Except.error "Failed to access object") () with
    | error e => rw [hck, error_bind] at h; exact Except.noConfusion h
    | ok u =>
      rw [hck, ok_bind] at h
      exact ⟨⟨obj, rfl, checkFold_ok obj ra.2 u hck⟩,
        vwrFold_ok op.wrAcc ret r1 h⟩

theorem vrdStep_ok_head_not_mem (c : Core) (op : ExecOp) (ret r1 : Res)
    (ra : String × List Idx) (wa : String × List Idx)
    (t : List (String × List Idx)) (hwr : op.wrAcc = wa :: t)
    (h : vrdStep c op ret ra = .ok r1) :
    alookup ret wa.1 = none := by
  simp only [vrdStep] at h
  cases hlo : alookup c.objs ra.1 with
  | none =>
    simp only [hlo, error_bind] at h
    exact Except.noConfusion h
  | some obj =>
    simp only [hlo, ok_bind] at h
    cases hck : ra.2.foldlM (fun (_ : Unit) idx =>
        match getV obj idx with
        | some _ => Except.ok ()
        | none => Except.error "Failed to access object") () with
    | error e => rw [hck, error_bind] at h; exact Except.noConfusion h
    | ok u =>
      rw [hck, ok_bind, hwr] at h
      exact vwrFold_cons_not_mem wa t ret r1 h

theorem vrdFold_ok (c : Core) (op : ExecOp) :
    ∀ (ras : List (String × List Idx)) (ret ret' : Res),
      List.foldlM (vrdStep c op) ret ras = .ok ret' →
      (∀ ra ∈ ras, ∃ obj, alookup c.objs ra.1 = some obj ∧
        ∀ idx ∈ ra.2, (getV obj idx).isSome = true) ∧
      ret' = ret ++ (if ras.isEmpty then [] else op.wrAcc.map echoEntry) := by
  intro ras
  induction ras with
  | nil =>
    intro ret ret' h
    simp only [List.foldlM_nil] at h
    injection h with h
    exact ⟨fun ra hra => absurd hra (List.not_mem_nil _), by rw [← h]; simp⟩
  | cons ra rest ih =>
    intro ret ret' h
    rw [List.foldlM_cons] at h
    cases hstep : vrdStep c op ret ra with
    | error e => rw [hstep, error_bind] at h; exact Except.noConfusion h
    | ok ret1 =>
      rw [hstep, ok_bind] at h
      obtain ⟨hread, hret1⟩ := vrdStep_reads c op ret ret1 ra hstep
      obtain ⟨hreads, hret'⟩ := ih ret1 ret' h
      refine ⟨?_, ?_⟩
      · intro q hq
        rcases List.mem_cons.mp hq with rfl | hq'
        · exact hread
        · exact hreads q hq'
      · cases hrest : rest with
        | nil =>
          rw [hrest] at hret'
          simp only [List.isEmpty_nil, if_true] at hret'
          rw [hret', List.append_nil, hret1]
          simp [List.isEmpty_cons]
        | cons r2 t2 =>
          cases hwr : op.wrAcc with
          | nil =>
            rw [hwr, List.map_nil, List.append_nil] at hret1
            rw [hret', hret1, hwr]
            simp
          | cons wa t =>
            rw [hrest, List.foldlM_cons] at h
            cases hstep2 : vrdStep c op ret1 r2 with
            | error e => rw [hstep2, error_bind] at h; exact Except.noConfusion h
            | ok rmid =>
              have hn := vrdStep_ok_head_not_mem c op ret1 rmid r2 wa t hwr hstep2
              rw [hret1, hwr, alookup_append] at hn
              cases halo : alookup ret wa.1 with
              | some v => rw [halo] at hn; exact Option.noConfusion hn
              | none =>
                rw [halo] at hn
                simp [alookup, echoEntry] at hn

theorem validateOps_fold_ok (c : Core) :
    ∀ (ops : List ExecOp) (ret r : Res),
      List.foldlM (fun ret op => op.rdAcc.foldlM (vrdStep c op) ret) ret ops
        = .ok r →
      (∀ op ∈ ops, ∀ ra ∈ op.rdAcc, ∃ obj, alookup c.objs ra.1 = some obj ∧
        ∀ idx ∈ ra.2, (getV obj idx).isSome = true) ∧
      r = ret ++ (ops.map echoWrites).flatten := by
  intro ops
  induction ops with
  | nil =>
    intro ret r h
    simp only [List.foldlM_nil] at h
    injection h with h
    exact ⟨fun op hop => absurd hop (List.not_mem_nil _), by rw [← h]; simp⟩
  | cons op t ih =>
    intro ret r h
    rw [List.foldlM_cons] at h
    cases hstep : op.rdAcc.foldlM (vrdStep c op) ret with
    | error e => rw [hstep, error_bind] at h; exact Except.noConfusion h
    | ok ret1 =>
      rw [hstep, ok_bind] at h
      obtain ⟨hrd, hret1⟩ := vrdFold_ok c op op.rdAcc ret ret1 hstep
      obtain ⟨hrds, hr⟩ := ih ret1 r h
      refine ⟨?_, ?_⟩
      · intro q hq
        rcases List.mem_cons.mp hq with rfl | hq'
        · exact hrd
        · exact hrds q hq'
      · rw [hr, hret1]
        simp only [List.map_cons, List.flatten_cons, echoWrites]
        rw [List.append_assoc]

/-- C6 counterexample: the claim says `validate_ops` range-checks only
the FIRST operation's read indices.  With object `x` of shape `(2,)`,
the one-operation list reading `x[0]` validates fine, but adding a
second operation reading `x[5]` makes `validate_ops` fail — the second
operation's reads ARE range-checked, refuting the claim. -/
theorem validate_first_op_only_counterexample :
    validateOps ⟨none, [("x", ⟨[2], [0, 0]⟩)], []⟩
      [⟨"MxV", [("x", [[0]])], []⟩] = .ok [] ∧
    exOk (validateOps ⟨none, [("x", ⟨[2], [0, 0]⟩)], []⟩
      [⟨"MxV", [("x", [[0]])], []⟩, ⟨"ADD", [("x", [[5]])], []⟩]) = false := by
  constructor
  · decide
  · decide

/-- C6 amended: whenever `validate_ops` succeeds, EVERY operation's read
accesses named an existing object and every read index was in bounds
(no numeric computation is modelled: values are never touched), and the
result echoes, per operation with at least one read access, its write
accesses' index lists paired with unset values (the echo loop is nested
inside the read-access loop, so an operation with no reads contributes
no write entries). -/
theorem validate_checks_all_ops (c : Core) (ops : List ExecOp) (r : Res)
    (h : validateOps c ops = .ok r) :
    (∀ op ∈ ops, ∀ ra ∈ op.rdAcc, ∃ obj, alookup c.objs ra.1 = some obj ∧
      ∀ idx ∈ ra.2, (getV obj idx).isSome = true) ∧
    r = (ops.map echoWrites).flatten := by
  have hmain := validateOps_fold_ok c ops [] r h
  exact ⟨hmain.1, by rw [hmain.2]; simp⟩

/-- C6 witness: a one-operation validation reading `x[0]` and writing
`y[1]` succeeds; the theorem yields the in-bounds read checks and the
write echo. -/
theorem validate_checks_all_ops_witness :
    (∀ op ∈ [(⟨"MxV", [("x", [[0]])], [("y", [[1]])]⟩ : ExecOp)],
      ∀ ra ∈ op.rdAcc, ∃ obj,
        alookup (⟨none, [("x", ⟨[2], [0, 0]⟩)], []⟩ : Core).objs ra.1 = some obj ∧
        ∀ idx ∈ ra.2, (getV obj idx).isSome = true) ∧
    ([("y", [([1], (none : Option Val))])] : Res) =
      (([(⟨"MxV", [("x", [[0]])], [("y", [[1]])]⟩ : ExecOp)]).map echoWrites).flatten :=
  validate_checks_all_ops ⟨none, [("x", ⟨[2], [0, 0]⟩)], []⟩
    [⟨"MxV", [("x", [[0]])], [("y", [[1]])]⟩]
    [("y", [([1], none)])] (by decide)

theorem forall2_frame_refl (l : List StageSt) :
    List.Forall₂ stageFrameR l l := by
  induction l with
  | nil => exact .nil
  | cons s t ih => exact .cons ⟨rfl, rfl, rfl⟩ ih

theorem forall2_frame_trans (l2 l1 l0 : List StageSt)
    (h21 : List.Forall₂ stageFrameR l2 l1)
    (h10 : List.Forall₂ stageFrameR l1 l0) :
    List.Forall₂ stageFrameR l2 l0 := by
  induction h21 generalizing l0 with
  | nil => cases h10; exact .nil
  | cons h t ih =>
    cases h10 with
    | cons h' t' =>
      exact .cons ⟨h.1.trans h'.1, h.2.1.trans h'.2.1, h.2.2.trans h'.2.2⟩
        (ih _ t')

/-- `Stage.write_callback` only touches the core's arrays and the
watermark state, never the stage's name, its iteration stream nor its
position in it. -/
theorem writeCallback_frame (st : StageSt) (objstr : String) (idx : Idx)
    (val : Option Val) (st' : StageSt)
    (h : writeCallback st objstr idx val = .ok st') :
    stageFrameR st' st := by
  simp only [writeCallback] at h
  by_cases hro : objstr ∈ st.roObjs
  · rw [if_pos hro] at h
    cases hlo : alookup st.core.objs objstr with
    | none =>
      simp only [hlo, error_bind] at h
      exact Except.noConfusion h
    | some obj =>
      simp only [hlo, ok_bind] at h
      cases val with
      | some v =>
        cases hsv : setV obj idx v with
        | none =>
          simp only [hsv, error_bind] at h
          exact Except.noConfusion h
        | some o' =>
          simp only [hsv, ok_bind] at h
          cases hwm : alookup st.wm objstr with
          | none =>
            simp only [hwm] at h
            exact Except.noConfusion h
          | some e =>
            simp only [hwm] at h
            injection h with h
            rw [← h]
            exact ⟨rfl, rfl, rfl⟩
      | none =>
        cases hgv : getV obj idx with
        | none =>
          simp only [hgv, error_bind] at h
          exact Except.noConfusion h
        | some v0 =>
          simp only [hgv, ok_bind] at h
          cases hwm : alookup st.wm objstr with
          | none =>
            simp only [hwm] at h
            exact Except.noConfusion h
          | some e =>
            simp only [hwm] at h
            injection h with h
            rw [← h]
            exact ⟨rfl, rfl, rfl⟩
  · rw [if_neg hro] at h
    exact Except.noConfusion h

theorem updStages_frame (r objstr : String) (idx : Idx) (val : Option Val) :
    ∀ (l l' : List StageSt), updStages r objstr idx val l = .ok l' →
      List.Forall₂ stageFrameR l' l := by
  intro l
  induction l with
  | nil =>
    intro l' h
    simp only [updStages] at h
    injection h with h
    rw [← h]
    exact .nil
  | cons s rest ih =>
    intro l' h
    simp only [updStages] at h
    by_cases hn : s.name = r
    · rw [if_pos hn] at h
      cases hwc : writeCallback s objstr idx val with
      | error e => rw [hwc, error_bind] at h; exact Except.noConfusion h
      | ok s' =>
        rw [hwc, ok_bind] at h
        cases hrest : updStages r objstr idx val rest with
        | error e => rw [hrest, error_bind] at h; exact Except.noConfusion h
        | ok rest' =>
          rw [hrest, ok_bind] at h
          injection h with h
          rw [← h]
          exact .cons (writeCallback_frame s objstr idx val s' hwc)
            (ih rest' hrest)
    · rw [if_neg hn] at h
      cases hrest : updStages r objstr idx val rest with
      | error e => rw [hrest, error_bind] at h; exact Except.noConfusion h
      | ok rest' =>
        rw [hrest, ok_bind] at h
        injection h with h
        rw [← h]
        exact .cons ⟨rfl, rfl, rfl⟩ (ih rest' hrest)

theorem applyWrite_frame (ps : PipeSt) (w : WriteRec) (ps' : PipeSt)
    (h : applyWrite ps w = .ok ps') :
    List.Forall₂ stageFrameR ps'.stages ps.stages := by
  simp only [applyWrite] at h
  cases hlo : alookup ps.pObjs w.1 with
  | none =>
    simp only [hlo, error_bind] at h
    exact Except.noConfusion h
  | some o =>
    simp only [hlo, ok_bind] at h
    cases hrd : o.reader with
    | some r =>
      simp only [hrd] at h
      by_cases hany : ps.stages.any (fun s => s.name = r)
      · rw [if_pos hany] at h
        cases hup : updStages r w.1 w.2.1 w.2.2 ps.stages with
        | error e => rw [hup, error_bind] at h; exact Except.noConfusion h
        | ok sts =>
          rw [hup, ok_bind] at h
          injection h with h
          rw [← h]
          exact updStages_frame r w.1 w.2.1 w.2.2 ps.stages sts hup
      · rw [if_neg hany] at h
        exact Except.noConfusion h
    | none =>
      simp only [hrd] at h
      cases hv : w.2.2 with
      | some v =>
        simp only [hv] at h
        cases horp : alookup ps.orphans w.1 with
        | none =>
          simp only [horp] at h
          injection h with h
          rw [← h]
          exact forall2_frame_refl _
        | some arr =>
          simp only [horp] at h
          cases hsv : setV arr w.2.1 v with
          | none =>
            simp only [hsv] at h
            exact Except.noConfusion h
          | some arr' =>
            simp only [hsv] at h
            injection h with h
            rw [← h]
            exact forall2_frame_refl _
      | none =>
        simp only [hv] at h
        injection h with h
        rw [← h]
        exact forall2_frame_refl _

/-- `Pipeline.flush_writes` never changes any stage's name, iteration
stream or position. -/
theorem flushWrites_frame (ps ps' : PipeSt) (h : flushWrites ps = .ok ps') :
    List.Forall₂ stageFrameR ps'.stages ps.stages := by
  simp only [flushWrites] at h
  cases hf : ps.writes.foldlM applyWrite ps with
  | error e => rw [hf, error_bind] at h; exact Except.noConfusion h
  | ok ps1 =>
    rw [hf, ok_bind] at h
    injection h with h
    rw [← h]
    exact foldlM_except_preserve applyWrite
      (fun q => List.Forall₂ stageFrameR q.stages ps.stages)
      (fun b a b' hb hs =>
        forall2_frame_trans b'.stages b.stages ps.stages
          (applyWrite_frame b a b' hs) hb)
      ps.writes ps ps1 (forall2_frame_refl _) hf

/-- C5: stalled iterations are retried, never skipped.  With the joined
iteration `idx` current (`iters[pos]`): a tick on which `reads_ready` is
false yields `none` and leaves the stage state completely unchanged —
the iteration is neither executed nor discarded; a tick on which
`reads_ready` is true executes exactly `idx` (yields `some idx`,
advancing past it).  Between ticks only the flush phase touches stages,
and it preserves every stage's iteration stream and position, so the
first ready tick still faces the identical iteration `idx`. -/
theorem stage_stall_retries :
    (∀ (execF : Bool) (pObjs : ObjMap) (s : StageSt) (idx : Idx)
        (ops : List ExecOp), s.iters.get? s.pos = some (idx, ops) →
      (readsReady s.wm idx = .ok false →
        stageTickStep execF pObjs s = .ok (some (none, s, []))) ∧
      (∀ c' res ws, readsReady s.wm idx = .ok true →
        runOps execF s.core ops = .ok (c', res) →
        issueWrites pObjs s.name res = .ok ws →
        stageTickStep execF pObjs s =
          .ok (some (some idx, { s with pos := s.pos + 1, core := c' }, ws)))) ∧
    (∀ (ps ps' : PipeSt), flushWrites ps = .ok ps' →
      List.Forall₂ stageFrameR ps'.stages ps.stages) := by
  constructor
  · intro execF pObjs s idx ops hget
    constructor
    · intro hrr
      simp only [stageTickStep, hget, hrr, ok_bind]
      rfl
    · intro c' res ws hrr hrun hiss
      simp only [stageTickStep, hget, hrr, ok_bind, if_true, hrun, hiss]
  · exact fun ps ps' h => flushWrites_frame ps ps' h

/-- C5 witness: the stalled tick yields `none` with the state unchanged
and no writes; the ready tick executes exactly the current index `(0)`;
a flush of an empty buffer preserves stream and position. -/
theorem stage_stall_retries_witness :
    stageTickStep false [] stallStage = .ok (some (none, stallStage, [])) ∧
    stageTickStep false [] readyStage =
      .ok (some (some [0], ⟨"s1", [], [([0], [])], 1, ⟨none, [], []⟩, []⟩, [])) ∧
    List.Forall₂ stageFrameR [readyStage] [readyStage] :=
  ⟨(stage_stall_retries.1 false [] stallStage [0] [] (by decide)).1 (by decide),
   (stage_stall_retries.1 false [] readyStage [0] [] (by decide)).2
     readyStage.core [] [] (by decide) rfl rfl,
   stage_stall_retries.2 ⟨[], [readyStage], [], [], [], false, 0⟩
     ⟨[], [readyStage], [], [], [], false, 0⟩ (by decide)⟩

/-- `Core.handle_op_output` leaves the core's external object arrays
untouched (it writes internal objects or accumulates results). -/
theorem handleOpOutput_objs (c : Core) (res : Res) (o : String)
    (wrIs : List Idx) (wrVs : List Val) (c' : Core) (res' : Res)
    (h : handleOpOutput c res o wrIs wrVs = .ok (c', res')) :
    c'.objs = c.objs := by
  simp only [handleOpOutput] at h
  cases hlo : alookup c.internalObjs o with
  | some obj =>
    simp only [hlo] at h
    split at h
    · rename_i obj' hf
      injection h with h
      simp only [Prod.mk.injEq] at h
      obtain ⟨h1, -⟩ := h
      rw [← h1]
    · exact Except.noConfusion h
  | none =>
    simp only [hlo] at h
    split at h
    · exact Except.noConfusion h
    · injection h with h
      simp only [Prod.mk.injEq] at h
      obtain ⟨h1, -⟩ := h
      rw [← h1]

/-- One operation of `execute_ops` leaves the external arrays
untouched. -/
theorem execOp_objs (xm : List (List Val)) (cr : Core × Res) (op : ExecOp)
    (cr' : Core × Res) (h : execOp xm cr op = .ok cr') :
    cr'.1.objs = cr.1.objs := by
  have hfold : ∀ (y : List Val),
      op.wrAcc.foldlM
        (fun (q : Core × Res) (w : String × List Idx) =>
          handleOpOutput q.1 q.2 w.1 w.2 y) cr = .ok cr' →
      cr'.1.objs = cr.1.objs := by
    intro y hf
    refine foldlM_except_preserve _
      (fun q : Core × Res => q.1.objs = cr.1.objs) ?_
      op.wrAcc cr cr' rfl hf
    intro b a b' hb hs
    show b'.1.objs = cr.1.objs
    rw [show b'.1.objs = b.1.objs from
      handleOpOutput_objs b.1 b.2 a.1 a.2 y b'.1 b'.2 hs]
    exact hb
  simp only [execOp] at h
  split at h
  · split at h
    · rename_i rdObj rdIs heq
      cases hrd : readObject cr.1 rdObj rdIs with
      | error e => rw [hrd, error_bind] at h; exact Except.noConfusion h
      | ok x =>
        rw [hrd, ok_bind] at h
        cases hmm : matmul xm x with
        | error e => rw [hmm, error_bind] at h; exact Except.noConfusion h
        | ok y =>
          rw [hmm, ok_bind] at h
          exact hfold y h
    · exact Except.noConfusion h
  · split at h
    · split at h
      · rename_i o1 l1 o2 l2 heq
        cases hrd1 : readObject cr.1 o1 l1 with
        | error e => rw [hrd1, error_bind] at h; exact Except.noConfusion h
        | ok x1 =>
          rw [hrd1, ok_bind] at h
          cases hrd2 : readObject cr.1 o2 l2 with
          | error e => rw [hrd2, error_bind] at h; exact Except.noConfusion h
          | ok x2 =>
            rw [hrd2, ok_bind] at h
            cases hadd : npAdd x1 x2 with
            | error e => rw [hadd, error_bind] at h; exact Except.noConfusion h
            | ok y =>
              rw [hadd, ok_bind] at h
              exact hfold y h
      · exact Except.noConfusion h
    · exact Except.noConfusion h

/-- `Core.execute_ops` leaves the external arrays untouched. -/
theorem executeOps_objs (c : Core) (ops : List ExecOp) (c' : Core)
    (res : Res) (h : executeOps c ops = .ok (c', res)) :
    c'.objs = c.objs := by
  simp only [executeOps] at h
  split at h
  · exact Except.noConfusion h
  · rename_i xm heq
    split at h
    · exact Except.noConfusion h
    · split at h
      · exact Except.noConfusion h
      · exact foldlM_except_preserve (execOp xm)
          (fun q : Core × Res => q.1.objs = c.objs)
          (fun b a b' hb hs => by
            show b'.1.objs = c.objs
            rw [execOp_objs xm b a b' hs]; exact hb)
          _ (c, []) (c', res) rfl h

theorem runOps_objs (execF : Bool) (c : Core) (ops : List ExecOp)
    (c' : Core) (res : Res) (h : runOps execF c ops = .ok (c', res)) :
    c'.objs = c.objs := by
  cases execF with
  | true => exact executeOps_objs c ops c' res h
  | false =>
    have h' : (do
        let r ← validateOps c ops
        Except.ok (c, r) : Except String (Core × Res)) = .ok (c', res) := h
    cases hv : validateOps c ops with
    | error e => rw [hv, error_bind] at h'; exact Except.noConfusion h'
    | ok r =>
      rw [hv, ok_bind] at h'
      injection h' with h'
      simp only [Prod.mk.injEq] at h'
      obtain ⟨h1, -⟩ := h'
      rw [← h1]

/-- A successful (non-exhausted) stage tick never changes the stage's
name, its external object arrays, or its watermark states: in execute
mode only internal objects and the stream position move, in validate
mode only the position. -/
theorem stageTickStep_objs (execF : Bool) (pObjs : ObjMap) (s : StageSt)
    (r : Option Idx) (st' : StageSt) (w : List WriteRec)
    (h : stageTickStep execF pObjs s = .ok (some (r, st', w))) :
    stageObjsR st' s := by
  simp only [stageTickStep] at h
  split at h
  · injection h with h
    exact Option.noConfusion h
  · rename_i idx ops heq
    cases hrr : readsReady s.wm idx with
    | error e => rw [hrr, error_bind] at h; exact Except.noConfusion h
    | ok rdy =>
      rw [hrr, ok_bind] at h
      cases rdy with
      | true =>
        rw [if_pos rfl] at h
        cases hrun : runOps execF s.core ops with
        | error e => rw [hrun, error_bind] at h; exact Except.noConfusion h
        | ok cr =>
          rw [hrun, ok_bind] at h
          cases hiss : issueWrites pObjs s.name cr.2 with
          | error e => rw [hiss, error_bind] at h; exact Except.noConfusion h
          | ok ws2 =>
            rw [hiss, ok_bind] at h
            injection h with h
            injection h with h
            simp only [Prod.mk.injEq] at h
            obtain ⟨-, h2, -⟩ := h
            rw [← h2]
            exact ⟨rfl, runOps_objs execF s.core ops cr.1 cr.2 hrun, rfl⟩
      | false =>
        rw [if_neg (by simp)] at h
        injection h with h
        injection h with h
        simp only [Prod.mk.injEq] at h
        obtain ⟨-, h2, -⟩ := h
        rw [← h2]
        exact ⟨rfl, rfl, rfl⟩

/-- The stage-ticking pass preserves, stage by stage, the name, the
external arrays and the watermarks. -/
theorem goStages_frame (execF : Bool) (pObjs : ObjMap) (live : List String) :
    ∀ (l sts : List StageSt) (lv : List String)
      (rets : List (String × Option Idx)) (ws : List WriteRec),
      goStages execF pObjs live l = .ok (sts, lv, rets, ws) →
      List.Forall₂ stageObjsR sts l := by
  intro l
  induction l with
  | nil =>
    intro sts lv rets ws h
    simp only [goStages] at h
    injection h with h
    simp only [Prod.mk.injEq] at h
    obtain ⟨h1, -⟩ := h
    rw [← h1]
    exact .nil
  | cons st rest ih =>
    intro sts lv rets ws h
    simp only [goStages] at h
    by_cases hmem : st.name ∈ live
    · rw [if_pos hmem] at h
      cases hts : stageTickStep execF pObjs st with
      | error e => rw [hts] at h; exact Except.noConfusion h
      | ok o =>
        cases o with
        | none =>
          simp only [hts] at h
          cases hgo : goStages execF pObjs live rest with
          | error e => rw [hgo, error_bind] at h; exact Except.noConfusion h
          | ok q =>
            obtain ⟨sts', lv', rets', ws'⟩ := q
            simp only [hgo, ok_bind] at h
            injection h with h
            simp only [Prod.mk.injEq] at h
            obtain ⟨h1, -⟩ := h
            rw [← h1]
            exact .cons ⟨rfl, rfl, rfl⟩ (ih sts' lv' rets' ws' hgo)
        | some trip =>
          obtain ⟨r, st', w⟩ := trip
          simp only [hts] at h
          cases hgo : goStages execF pObjs live rest with
          | error e => rw [hgo, error_bind] at h; exact Except.noConfusion h
          | ok q =>
            obtain ⟨sts', lv', rets', ws'⟩ := q
            simp only [hgo, ok_bind] at h
            injection h with h
            simp only [Prod.mk.injEq] at h
            obtain ⟨h1, -⟩ := h
            rw [← h1]
            exact .cons (stageTickStep_objs execF pObjs st r st' w hts)
              (ih sts' lv' rets' ws' hgo)
    · rw [if_neg hmem] at h
      cases hgo : goStages execF pObjs live rest with
      | error e => rw [hgo, error_bind] at h; exact Except.noConfusion h
      | ok q =>
        obtain ⟨sts', lv', rets', ws'⟩ := q
        simp only [hgo, ok_bind] at h
        injection h with h
        simp only [Prod.mk.injEq] at h
        obtain ⟨h1, -⟩ := h
        rw [← h1]
        exact .cons ⟨rfl, rfl, rfl⟩ (ih sts' lv' rets' ws' hgo)

/-- `Pipeline.flush_writes` always leaves the pending-write buffer
empty. -/
theorem flushWrites_writes_nil (q q' : PipeSt)
    (h : flushWrites q = .ok q') : q'.writes = [] := by
  simp only [flushWrites] at h
  cases hf : q.writes.foldlM applyWrite q with
  | error e => rw [hf, error_bind] at h; exact Except.noConfusion h
  | ok q1 =>
    rw [hf, ok_bind] at h
    injection h with h
    rw [← h]

/-- C1: deferred write visibility.  Any successful `Pipeline.tick`
factors into the stage-ticking pass followed by the flush: during the
pass every live stage ticks exactly once and each issued write is only
appended to the pending-write buffer (`writes := ps.writes ++ ws`) —
every stage's external object arrays and watermark states, the orphan
buffers and the object registry are untouched (at most internal objects
and stream positions move); only then does `flush_writes` run, applying
exactly the buffered writes, and the tick ends with an empty
pending-write buffer. -/
theorem tick_defers_writes (ps : PipeSt) (rets : List (String × Option Idx))
    (ps' : PipeSt) (h : tick ps = .ok (rets, ps')) :
    ∃ sts lv ws ps2,
      goStages ps.execF ps.pObjs ps.live ps.stages = .ok (sts, lv, rets, ws) ∧
      List.Forall₂ stageObjsR sts ps.stages ∧
      flushWrites { ps with stages := sts, live := lv, writes := ps.writes ++ ws } = .ok ps2 ∧
      ps' = { ps2 with nticks := ps2.nticks + 1 } ∧
      ps'.writes = [] := by
  simp only [tick] at h
  split at h
  · exact Except.noConfusion h
  · cases hgo : goStages ps.execF ps.pObjs ps.live ps.stages with
    | error e => rw [hgo, error_bind] at h; exact Except.noConfusion h
    | ok q =>
      obtain ⟨sts, lv, rets2, ws⟩ := q
      simp only [hgo, ok_bind] at h
      cases hfl : flushWrites { ps with stages := sts, live := lv, writes := ps.writes ++ ws } with
      | error e => rw [hfl, error_bind] at h; exact Except.noConfusion h
      | ok ps2 =>
        rw [hfl, ok_bind] at h
        injection h with h
        simp only [Prod.mk.injEq] at h
        obtain ⟨h1, h2⟩ := h
        refine ⟨sts, lv, ws, ps2, by rw [← h1], ?_, hfl, h2.symm, ?_⟩
        · exact goStages_frame ps.execF ps.pObjs ps.live ps.stages
            sts lv rets2 ws hgo
        · rw [← h2]
          exact flushWrites_writes_nil _ ps2 hfl

/-- C1 witness: on the concrete one-stage pipeline, the tick decomposes
into the buffering pass and the flush, ending with an empty buffer. -/
theorem tick_defers_writes_witness :
    ∃ sts lv ws ps2,
      goStages tickExPipe.execF tickExPipe.pObjs tickExPipe.live
        tickExPipe.stages = .ok (sts, lv, [("s1", some [0])], ws) ∧
      List.Forall₂ stageObjsR sts tickExPipe.stages ∧
      flushWrites { tickExPipe with stages := sts, live := lv, writes := tickExPipe.writes ++ ws } = .ok ps2 ∧
      tickExPipeOut = { ps2 with nticks := ps2.nticks + 1 } ∧
      tickExPipeOut.writes = [] :=
  tick_defers_writes tickExPipe [("s1", some [0])] tickExPipeOut (by decide)

/-- C10 witness: the unknown-type access `XX` on object `b` leaves a
nonempty classification state untouched and raises nothing. -/
theorem unknown_access_type_ignored_witness :
    (⟨"XX", "b"⟩ : IslAccess).a_ty ≠ "RD" ∧
    (⟨"XX", "b"⟩ : IslAccess).a_ty ≠ "WR" ∧
    procAcc ⟨["q"], [], []⟩ ⟨"XX", "b"⟩ = .ok ⟨["q"], [], []⟩ :=
  ⟨by decide, by decide,
   unknown_access_type_ignored.1 ⟨["q"], [], []⟩ ⟨"XX", "b"⟩ (by decide) (by decide)⟩

end Cmnnc
